import Mathlib

/-!
# Verification of the SEO-Audit-Machine core

Shallow embedding of the repository's core components:

* the Sitemap Reader (`src/sitemap_parser.py`): `iter_sitemap`,
  `discover_from_roots`;
* the Catalog Store (`src/database.py`): `add_site`, `upsert_url`,
  `record_inspection`, `latest_inspection`,
  `not_indexed_but_internally_linked`, `migrate`, `connect`;
* the Ingestion Orchestrator (`src/seo-audit-machine.py`):
  `parse_sitemap_urls`, `_cmd_ingest_sitemaps`.

Python generators are embedded as functions returning the list of all
values the fully-consumed generator yields; SQLite tables are embedded as
lists of records; `datetime('now')` is an explicit `now : Nat` clock
parameter threaded by the caller.
-/

/-! ## Sitemap Reader (`src/sitemap_parser.py`) -/

/-- One `<url>` element of a urlset document, as seen after XML parsing:
`loc` is the text of the `<loc>` child (`none` when the element is missing
or its text is `None`), `lastmod` likewise for `<lastmod>`. -/
structure UrlEntry where
  loc : Option String
  lastmod : Option String
deriving DecidableEq, Repr

/-- The `DiscoveredURL` dataclass of `sitemap_parser.py`.  `priority` is a
Python float; the parser never constructs a non-`None` value for it, so we
embed it with `Rat` (exact) rather than a floating-point type. -/
structure DiscoveredURL where
  loc : String
  lastmod : Option String
  changefreq : Option String
  priority : Option Rat
deriving DecidableEq, Repr

/-- A fetched-and-parsed sitemap document, classified the way
`iter_sitemap` classifies the XML root tag: a `sitemapindex` root holds
child sitemaps (a child is `none` when its `<loc>` is missing or empty,
which the code skips); any other root is treated as a urlset. -/
inductive SitemapDoc where
  | urlset : List UrlEntry → SitemapDoc
  | index : List (Option SitemapDoc) → SitemapDoc

/-- The body of the urlset loop of `iter_sitemap`: skip when `loc_el is
None or not loc_el.text`, else yield `DiscoveredURL(loc.strip(), lastmod)`
where `lastmod` is stripped text when present and truthy. -/
def entryToURL (e : UrlEntry) : Option DiscoveredURL :=
  match e.loc with
  | none => none
  | some t =>
    if t = "" then none
    else
      some
        { loc := t.trim
          lastmod :=
            match e.lastmod with
            | none => none
            | some s => if s = "" then none else some s.trim
          changefreq := none
          priority := none }

/-- The cap test `max_urls is not None and yielded >= max_urls`. -/
def capReached (cap : Option Nat) (yielded : Nat) : Bool :=
  match cap with
  | none => false
  | some m => m ≤ yielded

/-- The expression `None if max_urls is None else max(0, max_urls - yielded)` — the cap
handed to a nested `iter_sitemap` call (`Nat` subtraction is truncated,
matching `max(0, ·)`). -/
def childCap (cap : Option Nat) (yielded : Nat) : Option Nat :=
  cap.map (fun m => m - yielded)

/-- The inner `for item in iter_sitemap(child, ...)` loop shared by the
sitemapindex branch and `discover_from_roots`: pull items from the child
sequence, yield each, increment the running count, and stop the whole
generator (`return`) once the cap is reached.  Returns the yielded items,
the updated count, and whether the early `return` fired. -/
def consume : List DiscoveredURL → Option Nat → Nat → List DiscoveredURL × Nat × Bool
  | [], _, yielded => ([], yielded, false)
  | d :: rest, cap, yielded =>
    if capReached cap (yielded + 1) then ([d], yielded + 1, true)
    else
      let r := consume rest cap (yielded + 1)
      (d :: r.1, r.2.1, r.2.2)

/-- The urlset branch of `iter_sitemap`: iterate the `<url>` elements,
skipping unresolvable locations, yielding each entry, stopping once the
cap is reached (checked after the yield). -/
def urlsetLoop : List UrlEntry → Option Nat → Nat → List DiscoveredURL
  | [], _, _ => []
  | e :: rest, cap, yielded =>
    match entryToURL e with
    | none => urlsetLoop rest cap yielded
    | some d =>
      if capReached cap (yielded + 1) then [d]
      else d :: urlsetLoop rest cap (yielded + 1)

mutual

/-- Function `iter_sitemap(url, max_urls)` of `sitemap_parser.py`, as the list of
entries yielded by the fully consumed generator, given the tree of
documents the fetches return. -/
def iterSitemap : SitemapDoc → Option Nat → List DiscoveredURL
  | .urlset entries, cap => urlsetLoop entries cap 0
  | .index children, cap => indexLoop children cap 0

/-- The sitemapindex branch of `iter_sitemap`: for each child with a
resolvable location, recurse with the remaining budget and pull its items
through the capped inner loop. -/
def indexLoop : List (Option SitemapDoc) → Option Nat → Nat → List DiscoveredURL
  | [], _, _ => []
  | none :: rest, cap, yielded => indexLoop rest cap yielded
  | some child :: rest, cap, yielded =>
    let r := consume (iterSitemap child (childCap cap yielded)) cap yielded
    if r.2.2 then r.1 else r.1 ++ indexLoop rest cap r.2.1

end

/-- The loop of `discover_from_roots`: same consumption pattern as the
sitemapindex branch, over the supplied root locations. -/
def rootsLoop : List SitemapDoc → Option Nat → Nat → List DiscoveredURL
  | [], _, _ => []
  | root :: rest, cap, yielded =>
    let r := consume (iterSitemap root (childCap cap yielded)) cap yielded
    if r.2.2 then r.1 else r.1 ++ rootsLoop rest cap r.2.1

/-- Function `discover_from_roots(roots, max_urls)` of `sitemap_parser.py`. -/
def discoverFromRoots (roots : List SitemapDoc) (cap : Option Nat) : List DiscoveredURL :=
  rootsLoop roots cap 0

example :
    iterSitemap (.urlset [⟨some "a", some "m"⟩, ⟨none, none⟩, ⟨some "b", none⟩]) none =
      [⟨"a".trim, some "m".trim, none, none⟩, ⟨"b".trim, none, none, none⟩] := by
  simp [iterSitemap, urlsetLoop, entryToURL, capReached]

example :
    (iterSitemap (.urlset [⟨some "a", none⟩]) (some 0)).length = 1 := by
  simp [iterSitemap, urlsetLoop, entryToURL, capReached]

example :
    iterSitemap
      (.index [some (.urlset [⟨some "a", none⟩, ⟨some "b", none⟩, ⟨some "c", none⟩]),
               some (.urlset [⟨some "d", none⟩, ⟨some "e", none⟩])]) (some 4) =
      [⟨"a".trim, none, none, none⟩, ⟨"b".trim, none, none, none⟩,
       ⟨"c".trim, none, none, none⟩, ⟨"d".trim, none, none, none⟩] := by
  simp [iterSitemap, indexLoop, urlsetLoop, entryToURL, capReached, childCap, consume]

/-! ## Reader lemmas -/

/-- Full (uncapped) expansion of an index child: skipped when its location
is unresolvable, otherwise the child's uncapped expansion. -/
def childFull : Option SitemapDoc → List DiscoveredURL
  | none => []
  | some d => iterSitemap d none

theorem urlsetLoop_none (entries : List UrlEntry) (y : Nat) :
    urlsetLoop entries none y = entries.filterMap entryToURL := by
  induction entries generalizing y with
  | nil => rfl
  | cons e rest ih =>
    cases h : entryToURL e <;>
      simp [urlsetLoop, h, capReached, List.filterMap_cons, ih]

theorem consume_none (items : List DiscoveredURL) (y : Nat) :
    consume items none y = (items, y + items.length, false) := by
  induction items generalizing y with
  | nil => simp [consume]
  | cons d rest ih =>
    simp [consume, capReached, ih]
    omega

theorem indexLoop_none (children : List (Option SitemapDoc)) (y : Nat) :
    indexLoop children none y = (children.map childFull).flatten := by
  induction children generalizing y with
  | nil => simp [indexLoop]
  | cons c rest ih =>
    cases c with
    | none => simpa [indexLoop, childFull] using ih y
    | some d => simp [indexLoop, childFull, childCap, consume_none, ih]

theorem rootsLoop_none (roots : List SitemapDoc) (y : Nat) :
    rootsLoop roots none y = (roots.map (fun d => iterSitemap d none)).flatten := by
  induction roots generalizing y with
  | nil => simp [rootsLoop]
  | cons d rest ih => simp [rootsLoop, childCap, consume_none, ih]

theorem consume_spec (items : List DiscoveredURL) (m y : Nat) (h : y < m) :
    consume items (some m) y =
      (items.take (m - y), y + min items.length (m - y), decide (m - y ≤ items.length)) := by
  induction items generalizing y with
  | nil =>
    have h0 : ¬ (m - y ≤ 0) := by omega
    simp [consume, h0, Nat.zero_min]
  | cons d rest ih =>
    by_cases hc : m ≤ y + 1
    · have h1 : m - y = 1 := by omega
      have h2 : 1 ≤ rest.length + 1 := by omega
      simp [consume, capReached, hc, h1, h2]
    · have hy : y + 1 < m := by omega
      have h4 : m - y = (m - (y + 1)) + 1 := by omega
      simp only [consume, capReached, decide_eq_true_eq, if_neg hc, ih (y + 1) hy]
      rw [h4, List.take_succ_cons]
      simp only [List.length_cons, Prod.mk.injEq]
      exact ⟨trivial, by omega, decide_eq_decide.mpr (by omega)⟩

theorem urlsetLoop_take (entries : List UrlEntry) (m y : Nat) (h : y < m) :
    urlsetLoop entries (some m) y = (entries.filterMap entryToURL).take (m - y) := by
  induction entries generalizing y with
  | nil => simp [urlsetLoop]
  | cons e rest ih =>
    cases he : entryToURL e with
    | none => simp [urlsetLoop, he, List.filterMap_cons, ih y h]
    | some d =>
      by_cases hc : m ≤ y + 1
      · have h1 : m - y = 1 := by omega
        simp [urlsetLoop, he, capReached, hc, List.filterMap_cons, h1]
      · have hy : y + 1 < m := by omega
        have h1 : m - y = (m - (y + 1)) + 1 := by omega
        simp only [urlsetLoop, he, capReached, decide_eq_true_eq, if_neg hc,
          List.filterMap_cons, ih (y + 1) hy]
        rw [h1, List.take_succ_cons]

mutual

theorem iterSitemap_take (doc : SitemapDoc) (m : Nat) (hm : 1 ≤ m) :
    iterSitemap doc (some m) = (iterSitemap doc none).take m := by
  cases doc with
  | urlset entries =>
    have h0 : 0 < m := hm
    simp only [iterSitemap, urlsetLoop_none, urlsetLoop_take entries m 0 h0, Nat.sub_zero]
  | index children =>
    have h0 : 0 < m := hm
    simpa [iterSitemap, indexLoop_none] using indexLoop_take children m 0 h0

theorem indexLoop_take (children : List (Option SitemapDoc)) (m y : Nat) (h : y < m) :
    indexLoop children (some m) y = ((children.map childFull).flatten).take (m - y) := by
  cases children with
  | nil => simp [indexLoop]
  | cons c rest =>
    cases c with
    | none =>
      simpa [indexLoop, childFull] using indexLoop_take rest m y h
    | some child =>
      have hcap : childCap (some m) y = some (m - y) := by simp [childCap]
      have hmy : 1 ≤ m - y := by omega
      have hchild := iterSitemap_take child (m - y) hmy
      simp only [indexLoop, hcap, hchild, consume_spec _ m y h, List.length_take,
        List.take_take, min_self, List.map_cons, List.flatten_cons, childFull]
      by_cases hlen : m - y ≤ (iterSitemap child none).length
      · have hd : decide (m - y ≤ min (m - y) (iterSitemap child none).length) = true :=
          decide_eq_true (by omega)
        simp only [hd, if_true]
        rw [List.take_append_of_le_length hlen]
      · have hd : decide (m - y ≤ min (m - y) (iterSitemap child none).length) = false :=
          decide_eq_false (by omega)
        have hfl : (iterSitemap child none).length ≤ m - y := by omega
        have hy' : y + (iterSitemap child none).length < m := by omega
        have hcount : y + min (min (m - y) (iterSitemap child none).length) (m - y) =
            y + (iterSitemap child none).length := by omega
        simp only [hd, Bool.false_eq_true, if_false, hcount]
        rw [List.take_of_length_le hfl, indexLoop_take rest m _ hy',
          List.take_append_eq_append_take, List.take_of_length_le hfl, Nat.sub_sub]

end

theorem rootsLoop_take (roots : List SitemapDoc) (m y : Nat) (h : y < m) :
    rootsLoop roots (some m) y =
      ((roots.map (fun d => iterSitemap d none)).flatten).take (m - y) := by
  induction roots generalizing y with
  | nil => simp [rootsLoop]
  | cons root rest ih =>
    have hcap : childCap (some m) y = some (m - y) := by simp [childCap]
    have hmy : 1 ≤ m - y := by omega
    have hchild := iterSitemap_take root (m - y) hmy
    simp only [rootsLoop, hcap, hchild, consume_spec _ m y h, List.length_take,
      List.take_take, min_self, List.map_cons, List.flatten_cons]
    by_cases hlen : m - y ≤ (iterSitemap root none).length
    · have hd : decide (m - y ≤ min (m - y) (iterSitemap root none).length) = true :=
        decide_eq_true (by omega)
      simp only [hd, if_true]
      rw [List.take_append_of_le_length hlen]
    · have hd : decide (m - y ≤ min (m - y) (iterSitemap root none).length) = false :=
        decide_eq_false (by omega)
      have hfl : (iterSitemap root none).length ≤ m - y := by omega
      have hy' : y + (iterSitemap root none).length < m := by omega
      have hcount : y + min (min (m - y) (iterSitemap root none).length) (m - y) =
          y + (iterSitemap root none).length := by omega
      simp only [hd, Bool.false_eq_true, if_false, hcount]
      rw [List.take_of_length_le hfl, ih _ hy',
        List.take_append_eq_append_take, List.take_of_length_le hfl, Nat.sub_sub]

theorem discoverFromRoots_none (roots : List SitemapDoc) :
    discoverFromRoots roots none = (roots.map (fun d => iterSitemap d none)).flatten := by
  simpa [discoverFromRoots] using rootsLoop_none roots 0

theorem discoverFromRoots_take (roots : List SitemapDoc) (m : Nat) (hm : 1 ≤ m) :
    discoverFromRoots roots (some m) = (discoverFromRoots roots none).take m := by
  have h0 : 0 < m := hm
  simpa [discoverFromRoots, rootsLoop_none] using rootsLoop_take roots m 0 h0

theorem length_iterSitemap_le (doc : SitemapDoc) (m : Nat) (hm : 1 ≤ m) :
    (iterSitemap doc (some m)).length ≤ m := by
  rw [iterSitemap_take doc m hm, List.length_take]
  omega

theorem length_discoverFromRoots_le (roots : List SitemapDoc) (m : Nat) (hm : 1 ≤ m) :
    (discoverFromRoots roots (some m)).length ≤ m := by
  rw [discoverFromRoots_take roots m hm, List.length_take]
  omega

theorem entryToURL_no_meta (e : UrlEntry) (d : DiscoveredURL) (h : entryToURL e = some d) :
    d.changefreq = none ∧ d.priority = none := by
  unfold entryToURL at h
  cases he : e.loc with
  | none => rw [he] at h; exact absurd h (by simp)
  | some t =>
    rw [he] at h
    dsimp only at h
    split at h
    · exact absurd h (by simp)
    · injection h with h2
      rw [← h2]
      exact ⟨rfl, rfl⟩

theorem mem_urlsetLoop_no_meta (entries : List UrlEntry) (cap : Option Nat) (y : Nat)
    (d : DiscoveredURL) (hd : d ∈ urlsetLoop entries cap y) :
    d.changefreq = none ∧ d.priority = none := by
  induction entries generalizing y with
  | nil => simp [urlsetLoop] at hd
  | cons e rest ih =>
    cases he : entryToURL e with
    | none =>
      simp only [urlsetLoop, he] at hd
      exact ih y hd
    | some d' =>
      simp only [urlsetLoop, he] at hd
      split at hd
      · rw [List.mem_singleton.mp hd]
        exact entryToURL_no_meta e d' he
      · rcases List.mem_cons.mp hd with h1 | h1
        · rw [h1]; exact entryToURL_no_meta e d' he
        · exact ih (y + 1) h1

theorem mem_consume (items : List DiscoveredURL) (cap : Option Nat) (y : Nat)
    (d : DiscoveredURL) (hd : d ∈ (consume items cap y).1) : d ∈ items := by
  induction items generalizing y with
  | nil => simp [consume] at hd
  | cons x rest ih =>
    simp only [consume] at hd
    split at hd
    · rw [List.mem_singleton.mp hd]
      exact List.mem_cons_self x rest
    · rcases List.mem_cons.mp hd with h1 | h1
      · rw [h1]; exact List.mem_cons_self x rest
      · exact List.mem_cons_of_mem x (ih (y + 1) h1)

mutual

theorem mem_iterSitemap_no_meta (doc : SitemapDoc) (cap : Option Nat) (d : DiscoveredURL)
    (hd : d ∈ iterSitemap doc cap) : d.changefreq = none ∧ d.priority = none := by
  cases doc with
  | urlset entries =>
    simp only [iterSitemap] at hd
    exact mem_urlsetLoop_no_meta entries cap 0 d hd
  | index children =>
    simp only [iterSitemap] at hd
    exact mem_indexLoop_no_meta children cap 0 d hd

theorem mem_indexLoop_no_meta (children : List (Option SitemapDoc)) (cap : Option Nat)
    (y : Nat) (d : DiscoveredURL) (hd : d ∈ indexLoop children cap y) :
    d.changefreq = none ∧ d.priority = none := by
  cases children with
  | nil => simp [indexLoop] at hd
  | cons c rest =>
    cases c with
    | none =>
      simp only [indexLoop] at hd
      exact mem_indexLoop_no_meta rest cap y d hd
    | some child =>
      simp only [indexLoop] at hd
      split at hd
      · exact mem_iterSitemap_no_meta child _ d (mem_consume _ _ _ d hd)
      · rcases List.mem_append.mp hd with h1 | h1
        · exact mem_iterSitemap_no_meta child _ d (mem_consume _ _ _ d h1)
        · exact mem_indexLoop_no_meta rest cap _ d h1

end

theorem mem_rootsLoop_no_meta (roots : List SitemapDoc) (cap : Option Nat) (y : Nat)
    (d : DiscoveredURL) (hd : d ∈ rootsLoop roots cap y) :
    d.changefreq = none ∧ d.priority = none := by
  induction roots generalizing y with
  | nil => simp [rootsLoop] at hd
  | cons root rest ih =>
    simp only [rootsLoop] at hd
    split at hd
    · exact mem_iterSitemap_no_meta root _ d (mem_consume _ _ _ d hd)
    · rcases List.mem_append.mp hd with h1 | h1
      · exact mem_iterSitemap_no_meta root _ d (mem_consume _ _ _ d h1)
      · exact ih _ h1

theorem mem_discoverFromRoots_no_meta (roots : List SitemapDoc) (cap : Option Nat)
    (d : DiscoveredURL) (hd : d ∈ discoverFromRoots roots cap) :
    d.changefreq = none ∧ d.priority = none := by
  exact mem_rootsLoop_no_meta roots cap 0 d hd

/-! ## Catalog Store (`src/database.py`)

Tables are lists of records in insertion order; `AUTOINCREMENT` ids are an
explicit `nextId` threaded by the caller; `datetime('now')` is an explicit
`now : Nat` clock value. -/

/-- A row of the `sites` table. -/
structure SiteRecord where
  id : Nat
  base_url : String
  name : Option String
deriving DecidableEq, Repr

/-- Python truthiness of the `name : Optional[str]` argument (the `if
name:` guard of `add_site`): `None` and `""` are falsy. -/
def nameTruthy : Option String → Bool
  | none => false
  | some s => s ≠ ""

/-- Function `add_site(conn, base_url, name)` of `database.py`: look up the site by
`base_url`; if present, run `UPDATE sites SET name = COALESCE(?, name)`
when a truthy `name` was passed (the bound `?` is non-NULL there, so
`COALESCE` picks the new name) and return the existing id; otherwise
insert a fresh row.  Returns (table, next autoincrement id, returned id). -/
def add_site (db : List SiteRecord) (nextId : Nat) (base_url : String)
    (name : Option String) : List SiteRecord × Nat × Nat :=
  match db.find? (fun s => s.base_url == base_url) with
  | some row =>
    let db' :=
      if nameTruthy name then
        db.map (fun s => if s.id = row.id then { s with name := name } else s)
      else db
    (db', nextId, row.id)
  | none =>
    (db ++ [{ id := nextId, base_url := base_url, name := name }], nextId + 1, nextId)

/-- A row of the `urls` table. -/
structure URLRecord where
  id : Nat
  site_id : Nat
  url : String
  in_sitemap : Bool
  http_status : Option Int
  last_modified : Option String
  change_freq : Option String
  priority : Option Rat
  first_seen : Nat
  last_seen : Option Nat
deriving DecidableEq, Repr

/-- Result triple of `upsert_url`: updated table, next autoincrement id,
returned `url_id`. -/
structure UpsertResult where
  db : List URLRecord
  nextId : Nat
  rowId : Nat
deriving DecidableEq, Repr

/-- Function `upsert_url(conn, site_id, url, in_sitemap, http_status, seen_now,
last_modified, change_freq, priority)` of `database.py`.

Update path: each optional field is added to the `SET` list only when the
argument is not `None`; `last_seen = datetime('now')` is added when
`seen_now`.  Insert path: the `INSERT` names only `site_id, url,
in_sitemap, http_status, last_seen` — `in_sitemap` via Python truthiness
(`1 if in_sitemap else 0`), `last_seen` via `CASE WHEN ? THEN
datetime('now') END`; `last_modified`, `change_freq` and `priority` are
not in the column list, so the fresh row gets their NULL defaults. -/
def upsert_url (db : List URLRecord) (nextId now site_id : Nat) (url : String)
    (in_sitemap : Option Bool) (http_status : Option Int) (seen_now : Bool)
    (last_modified : Option String) (change_freq : Option String)
    (priority : Option Rat) : UpsertResult :=
  match db.find? (fun r => r.site_id == site_id && r.url == url) with
  | some row =>
    let updated : URLRecord :=
      { row with
        in_sitemap := match in_sitemap with | some b => b | none => row.in_sitemap
        http_status := match http_status with | some v => some v | none => row.http_status
        last_modified :=
          match last_modified with | some v => some v | none => row.last_modified
        change_freq := match change_freq with | some v => some v | none => row.change_freq
        priority := match priority with | some v => some v | none => row.priority
        last_seen := if seen_now then some now else row.last_seen }
    ⟨db.map (fun r => if r.id = row.id then updated else r), nextId, row.id⟩
  | none =>
    ⟨db ++ [{ id := nextId, site_id := site_id, url := url
              in_sitemap := match in_sitemap with | some b => b | none => false
              http_status := http_status
              last_modified := none, change_freq := none, priority := none
              first_seen := now
              last_seen := if seen_now then some now else none }],
     nextId + 1, nextId⟩

/-- A row of the `inspections` table.  The two JSON blobs are kept
structured: `referring_urls_json` as the serialized list,
`raw_json` as the serialized key-value dict. -/
structure InspectionRec where
  id : Nat
  url_id : Nat
  inspected_at : Nat
  index_status : Option String
  coverage_state : Option String
  robots_txt_state : Option String
  canonical_url : Option String
  page_fetch_state : Option String
  last_crawl_time : Option String
  referring_urls_json : List String
  raw_json : List (String × String)
deriving DecidableEq, Repr

/-- Function `record_inspection(conn, url_id, ...)` of `database.py`: always a plain
`INSERT`; `referring_urls` falls back to `[]` when falsy
(`list(referring_urls) if referring_urls else []`), `raw` to the empty
dict (`raw or \x7b\x7d`).  Returns (table, next id, inspection id). -/
def record_inspection (db : List InspectionRec) (nextId now url_id : Nat)
    (index_status coverage_state robots_txt_state canonical_url page_fetch_state
      last_crawl_time : Option String)
    (referring_urls : Option (List String)) (raw : Option (List (String × String))) :
    List InspectionRec × Nat × Nat :=
  let row : InspectionRec :=
    { id := nextId, url_id := url_id, inspected_at := now
      index_status := index_status, coverage_state := coverage_state
      robots_txt_state := robots_txt_state, canonical_url := canonical_url
      page_fetch_state := page_fetch_state, last_crawl_time := last_crawl_time
      referring_urls_json := match referring_urls with | some l => l | none => []
      raw_json := match raw with | some d => d | none => [] }
  (db ++ [row], nextId + 1, nextId)

/-- The clause `ORDER BY inspected_at DESC, id DESC LIMIT 1` over a candidate list:
the row maximal in the lexicographic (inspected_at, id) order. -/
def latestPick : List InspectionRec → Option InspectionRec
  | [] => none
  | i :: rest =>
    match latestPick rest with
    | none => some i
    | some b =>
      if b.inspected_at > i.inspected_at ∨
          (b.inspected_at = i.inspected_at ∧ b.id > i.id) then some b
      else some i

/-- Function `latest_inspection(conn, url_id)` of `database.py`. -/
def latest_inspection (db : List InspectionRec) (url_id : Nat) : Option InspectionRec :=
  latestPick (db.filter (fun i => i.url_id == url_id))

/-- A result row of `not_indexed_but_internally_linked`:
`u.id AS url_id, u.url, l.index_status, l.coverage_state`. -/
structure ReportRow where
  url_id : Nat
  url : String
  index_status : Option String
  coverage_state : Option String
deriving DecidableEq, Repr

/-- The `latest` CTE of `not_indexed_but_internally_linked`: inspections
joined against the per-`url_id` maximum of `inspected_at`, i.e. every
inspection whose timestamp is maximal among its page's inspections (no
tie-break — several rows of one page can qualify). -/
def latestSet (insp : List InspectionRec) : List InspectionRec :=
  insp.filter (fun i =>
    (insp.filter (fun j => j.url_id == i.url_id)).all
      (fun j => j.inspected_at ≤ i.inspected_at))

/-- The `WHERE` disjunct `l.index_status IS NULL OR l.index_status !=
'INDEXED'` under SQL three-valued logic. -/
def sqlKeep : Option String → Bool
  | none => true
  | some s => s ≠ "INDEXED"

/-- Function `not_indexed_but_internally_linked(conn, site_id)` of `database.py`:
`urls LEFT JOIN latest ON l.url_id = u.id`, filtered by
`u.site_id = ? AND (l.index_status IS NULL OR l.index_status != 'INDEXED')`,
`ORDER BY u.id`.  Join rows of one page are listed in inspection-table
order (SQL leaves intra-key order unspecified; this model fixes it). -/
def not_indexed_but_internally_linked (urls : List URLRecord)
    (insp : List InspectionRec) (site_id : Nat) : List ReportRow :=
  let latest := latestSet insp
  let sorted := List.insertionSort (fun a b => a.id ≤ b.id) urls
  (sorted.map (fun u =>
    if u.site_id == site_id then
      let matched := latest.filter (fun l => l.url_id == u.id)
      let rows :=
        if matched.isEmpty then [ReportRow.mk u.id u.url none none]
        else matched.map (fun l => ReportRow.mk u.id u.url l.index_status l.coverage_state)
      rows.filter (fun r => sqlKeep r.index_status)
    else [])).flatten

instance : IsTotal URLRecord (fun a b => a.id ≤ b.id) :=
  ⟨fun a b => Nat.le_total a.id b.id⟩

instance : IsTrans URLRecord (fun a b => a.id ≤ b.id) :=
  ⟨fun _ _ _ hab hbc => Nat.le_trans hab hbc⟩

/-! ### Schema migrations

`migrate` wraps each pending migration in `with conn:` and runs the script
via `conn.executescript(sql)` followed by the ledger `INSERT`.  Per the
Python sqlite3 DB-API, `executescript` issues an implicit `COMMIT` and
then executes the script's statements outside the `with` block's
transaction, committing each as it goes; only the subsequent ledger
`INSERT` lives in the transaction that `with conn:` commits on success and
rolls back on exception.  A statement is embedded as its name plus whether
it succeeds. -/

/-- One SQL statement of a migration script. -/
structure Stmt where
  name : String
  ok : Bool
deriving DecidableEq, Repr

/-- Durable storage-file state: committed schema statements and the
`schema_migrations` ledger. -/
structure DBState where
  applied : List String
  ledger : List Nat
deriving DecidableEq, Repr

/-- The call `conn.executescript(sql)`: execute statements one by one, each
committed as executed; stop at the first failing statement, reporting
failure. -/
def executescript : DBState → List Stmt → DBState × Bool
  | st, [] => (st, true)
  | st, s :: rest =>
    if s.ok then executescript { st with applied := st.applied ++ [s.name] } rest
    else (st, false)

/-- One iteration of the `migrate` loop body (`with conn:
conn.executescript(sql); conn.execute("INSERT INTO schema_migrations...")`):
on script success the `with` block commits the ledger insert; on script
failure the exception rolls back the pending transaction — the ledger
insert never ran, while the script's already-committed statements remain. -/
def applyMigration (st : DBState) (version : Nat) (script : List Stmt) : DBState × Bool :=
  let r := executescript st script
  if r.2 then ({ r.1 with ledger := r.1.ledger ++ [version] }, true)
  else (r.1, false)

/-- The `for version, sql in MIGRATIONS` loop of `migrate`, with the
`applied` set snapshotted before the loop (as
`applied = set(_applied_versions(conn))` is).  A failing migration raises,
aborting the remaining iterations. -/
def migrateLoop (appliedVersions : List Nat) :
    DBState → List (Nat × List Stmt) → DBState × Bool
  | st, [] => (st, true)
  | st, (v, script) :: rest =>
    if v ∈ appliedVersions then migrateLoop appliedVersions st rest
    else
      let r := applyMigration st v script
      if r.2 then migrateLoop appliedVersions r.1 rest
      else (r.1, false)

/-- Function `migrate(conn)` of `database.py`. -/
def migrate (st : DBState) (migs : List (Nat × List Stmt)) : DBState × Bool :=
  migrateLoop st.ledger st migs

/-- The repository's `MIGRATIONS[0]` script (version 1): ten
`CREATE TABLE/INDEX IF NOT EXISTS` statements, all of which succeed. -/
def migration1Script : List Stmt :=
  [⟨"CREATE TABLE IF NOT EXISTS schema_migrations", true⟩,
   ⟨"CREATE TABLE IF NOT EXISTS sites", true⟩,
   ⟨"CREATE TABLE IF NOT EXISTS sitemaps", true⟩,
   ⟨"CREATE UNIQUE INDEX IF NOT EXISTS sitemaps_site_url_uq", true⟩,
   ⟨"CREATE TABLE IF NOT EXISTS urls", true⟩,
   ⟨"CREATE UNIQUE INDEX IF NOT EXISTS urls_site_url_uq", true⟩,
   ⟨"CREATE INDEX IF NOT EXISTS urls_site_idx", true⟩,
   ⟨"CREATE INDEX IF NOT EXISTS idx_urls_siteid_url", true⟩,
   ⟨"CREATE TABLE IF NOT EXISTS inspections", true⟩,
   ⟨"CREATE INDEX IF NOT EXISTS inspections_url_idx", true⟩]

/-- The repository's `MIGRATIONS` list. -/
def MIGRATIONS : List (Nat × List Stmt) := [(1, migration1Script)]

/-- Function `connect(db_path)` of `database.py`: when the storage file already
exists (`some st`) it is opened as-is — `migrate` is only called when the
file is being created for the first time, on the empty state. -/
def connect : Option DBState → DBState
  | some st => st
  | none => (migrate ⟨[], []⟩ MIGRATIONS).1

/-! ## Ingestion Orchestrator (`src/seo-audit-machine.py`) -/

/-- The `urls` table plus its autoincrement counter, threaded through an
ingestion run. -/
structure IngestState where
  db : List URLRecord
  nextId : Nat
deriving DecidableEq, Repr

/-- The body of the `for item in discover_from_roots(...)` loop of
`parse_sitemap_urls`: `upsert_url(conn, site_id, item.loc,
in_sitemap=True, last_modified=item.lastmod, change_freq=item.changefreq,
priority=item.priority)` (with `http_status` and `seen_now` left at their
defaults `None` and `True`). -/
def ingest_step (now site_id : Nat) (st : IngestState) (d : DiscoveredURL) : IngestState :=
  let r := upsert_url st.db st.nextId now site_id d.loc (some true) none true
    d.lastmod d.changefreq d.priority
  ⟨r.db, r.nextId⟩

/-- Function `parse_sitemap_urls(conn, site_id, sitemap_url, max_urls)` of
`seo-audit-machine.py`: upsert every discovered entry and count them. -/
def parse_sitemap_urls (now site_id : Nat) (st : IngestState) (doc : SitemapDoc)
    (cap : Option Nat) : IngestState × Nat :=
  let items := discoverFromRoots [doc] cap
  (items.foldl (ingest_step now site_id) st, items.length)

/-- The sitemap loop of `_cmd_ingest_sitemaps`: each stored sitemap row
(site_id, url, fetched document) with a falsy url is skipped; every other
one is run through `parse_sitemap_urls` with the *same* caller-supplied
`max_urls`; the per-sitemap counts are summed into `total_urls`. -/
def ingest_sitemaps (now : Nat) :
    IngestState → List (Nat × String × SitemapDoc) → Option Nat → IngestState × Nat
  | st, [], _ => (st, 0)
  | st, (site_id, u, doc) :: rest, cap =>
    if u = "" then ingest_sitemaps now st rest cap
    else
      let r := parse_sitemap_urls now site_id st doc cap
      let r2 := ingest_sitemaps now r.1 rest cap
      (r2.1, r.2 + r2.2)

/-! ## Claims -/

/-- C1, counterexample: the claim includes the cap `M = 0`, but
`iter_sitemap` checks the cap only *after* yielding an entry, so a
one-entry sitemap under `max_urls = 0` yields 1 entry, not the first 0
entries of the expansion. -/
theorem claim1_counterexample :
    0 ≤ (iterSitemap (.urlset [⟨some "a", none⟩]) none).length ∧
    (iterSitemap (.urlset [⟨some "a", none⟩]) (some 0)).length ≠ 0 := by
  constructor
  · exact Nat.zero_le _
  · simp [iterSitemap, urlsetLoop, entryToURL, capReached]

/-- C1 (amended): for every supplied cap M with 1 ≤ M, the discovery
sequence of `iter_sitemap` / `discover_from_roots` equals the first M
entries of the uncapped depth-first, document-order expansion (stopping
mid-recursion), and therefore yields exactly M entries whenever
M ≤ the total number of entries; the M = 0 case is excluded, where the
code yields one extra entry. -/
theorem claim1_cap_yields_first_m (doc : SitemapDoc) (roots : List SitemapDoc) (m : Nat)
    (hm : 1 ≤ m) :
    (iterSitemap doc (some m) = (iterSitemap doc none).take m ∧
      (m ≤ (iterSitemap doc none).length → (iterSitemap doc (some m)).length = m)) ∧
    (discoverFromRoots roots (some m) = (discoverFromRoots roots none).take m ∧
      (m ≤ (discoverFromRoots roots none).length →
        (discoverFromRoots roots (some m)).length = m)) := by
  refine ⟨⟨iterSitemap_take doc m hm, ?_⟩, ⟨discoverFromRoots_take roots m hm, ?_⟩⟩
  · intro h
    rw [iterSitemap_take doc m hm, List.length_take]
    omega
  · intro h
    rw [discoverFromRoots_take roots m hm, List.length_take]
    omega

/-- Witness for C1 (amended) at a concrete two-child index with cap 4. -/
theorem claim1_witness :
    (1 : Nat) ≤ 4 ∧
    (iterSitemap
        (.index [some (.urlset [⟨some "a", none⟩, ⟨some "b", none⟩, ⟨some "c", none⟩]),
                 some (.urlset [⟨some "d", none⟩, ⟨some "e", none⟩])]) (some 4) =
      (iterSitemap
        (.index [some (.urlset [⟨some "a", none⟩, ⟨some "b", none⟩, ⟨some "c", none⟩]),
                 some (.urlset [⟨some "d", none⟩, ⟨some "e", none⟩])]) none).take 4) :=
  ⟨by omega,
   (claim1_cap_yields_first_m
      (.index [some (.urlset [⟨some "a", none⟩, ⟨some "b", none⟩, ⟨some "c", none⟩]),
               some (.urlset [⟨some "d", none⟩, ⟨some "e", none⟩])]) [] 4 (by omega)).1.1⟩

/-- C2, counterexample: `_cmd_ingest_sitemaps` passes the caller's
`max_urls` unchanged to `parse_sitemap_urls` for every sitemap of the
site, so a site with two 2-entry sitemaps under a cap of 2 processes 4
entries in total, not at most 2. -/
theorem claim2_counterexample :
    (ingest_sitemaps 0 ⟨[], 1⟩
        [(1, "s1", .urlset [⟨some "a", none⟩, ⟨some "b", none⟩]),
         (1, "s2", .urlset [⟨some "c", none⟩, ⟨some "d", none⟩])] (some 2)).2 = 4 ∧
    ¬ ((4 : Nat) ≤ 2) := by
  constructor
  · simp [ingest_sitemaps, parse_sitemap_urls, discoverFromRoots, rootsLoop, iterSitemap,
      urlsetLoop, entryToURL, capReached, childCap, consume]
  · omega

/-- C2 (amended): the caller-supplied cap N is applied *per sitemap*, not
to the combined total: each sitemap of the site is processed with the full
cap N (at most N entries each, for N ≥ 1), so the total processed across
the site's sitemaps is only bounded by N times the number of stored
sitemaps. -/
theorem claim2_cap_per_sitemap (now : Nat) (st : IngestState)
    (sitemaps : List (Nat × String × SitemapDoc)) (n : Nat) (hn : 1 ≤ n) :
    (ingest_sitemaps now st sitemaps (some n)).2 ≤ n * sitemaps.length := by
  induction sitemaps generalizing st with
  | nil => simp [ingest_sitemaps]
  | cons sm rest ih =>
    obtain ⟨sid, u, doc⟩ := sm
    by_cases hu : u = ""
    · simp only [ingest_sitemaps, if_pos hu, List.length_cons, Nat.mul_succ]
      have := ih st
      omega
    · have h1 := length_discoverFromRoots_le [doc] n hn
      have h2 := ih (parse_sitemap_urls now sid st doc (some n)).1
      simp only [ingest_sitemaps, if_neg hu, List.length_cons, Nat.mul_succ]
      have h3 : (parse_sitemap_urls now sid st doc (some n)).2 =
          (discoverFromRoots [doc] (some n)).length := rfl
      rw [h3]
      have h4 : n * rest.length + (discoverFromRoots [doc] (some n)).length ≤
          n * rest.length + n := by omega
      calc (discoverFromRoots [doc] (some n)).length +
          (ingest_sitemaps now (parse_sitemap_urls now sid st doc (some n)).1 rest
            (some n)).2
      _ ≤ (discoverFromRoots [doc] (some n)).length + n * rest.length := by omega
      _ ≤ n * rest.length + n := by omega

/-- Witness for C2 (amended) at a one-sitemap site with cap 1. -/
theorem claim2_witness :
    (1 : Nat) ≤ 1 ∧
    (ingest_sitemaps 0 ⟨[], 1⟩
        [(1, "s1", .urlset [⟨some "a", none⟩, ⟨some "b", none⟩])] (some 1)).2 ≤
      1 * [(1, "s1", SitemapDoc.urlset [⟨some "a", none⟩, ⟨some "b", none⟩])].length :=
  ⟨by omega,
   claim2_cap_per_sitemap 0 ⟨[], 1⟩
     [(1, "s1", .urlset [⟨some "a", none⟩, ⟨some "b", none⟩])] 1 (by omega)⟩

/-- C3, counterexample: the Reader yields an entry with a present
last-modified value, but the page row created for it is persisted with
`last_modified = NULL`, because the `INSERT` branch of `upsert_url` does
not include the metadata columns — the claim fails in the
"created for the first time" case. -/
theorem claim3_counterexample :
    (discoverFromRoots [.urlset [⟨some "a", some "2024-01-01"⟩]] none).map
        (fun d => d.lastmod) = [some ("2024-01-01".trim)] ∧
    (parse_sitemap_urls 5 7 ⟨[], 1⟩ (.urlset [⟨some "a", some "2024-01-01"⟩]) none).1.db.map
        (fun r => r.last_modified) = [none] ∧
    (some ("2024-01-01".trim) : Option String) ≠ none := by
  refine ⟨?_, ?_, by simp⟩
  · simp [discoverFromRoots, rootsLoop, iterSitemap, urlsetLoop, entryToURL, capReached,
      childCap, consume]
  · simp [parse_sitemap_urls, discoverFromRoots, rootsLoop, iterSitemap, urlsetLoop,
      entryToURL, capReached, childCap, consume, ingest_step, upsert_url, List.find?]

/-- C3 (amended): every entry discovered during ingestion is upserted with
the sitemap-linked flag and its metadata arguments; when the page row
*already exists*, the updated row is sitemap-linked and carries the
entry's last-modified value whenever present (change-frequency and
priority arguments are always absent from the Reader, so those columns
keep their stored values); when the row is *created for the first time*,
it is sitemap-linked but its last-modified/change-frequency/priority
columns are left absent even when the entry carried metadata. -/
theorem claim3_ingest_metadata (doc : SitemapDoc) (cap : Option Nat) (d : DiscoveredURL)
    (db : List URLRecord) (nextId now site_id : Nat)
    (hd : d ∈ discoverFromRoots [doc] cap) :
    (∀ r, db.find? (fun x => x.site_id == site_id && x.url == d.loc) = some r →
      ∃ u, (upsert_url db nextId now site_id d.loc (some true) none true d.lastmod
              d.changefreq d.priority).db =
          db.map (fun x => if x.id = r.id then u else x) ∧
        u.in_sitemap = true ∧
        (∀ v, d.lastmod = some v → u.last_modified = some v) ∧
        (d.lastmod = none → u.last_modified = r.last_modified) ∧
        u.change_freq = r.change_freq ∧ u.priority = r.priority) ∧
    (db.find? (fun x => x.site_id == site_id && x.url == d.loc) = none →
      ∃ u, (upsert_url db nextId now site_id d.loc (some true) none true d.lastmod
              d.changefreq d.priority).db = db ++ [u] ∧
        u.in_sitemap = true ∧ u.last_modified = none ∧ u.change_freq = none ∧
        u.priority = none) := by
  have hmeta := mem_discoverFromRoots_no_meta [doc] cap d hd
  constructor
  · intro r hr
    unfold upsert_url
    rw [hr]
    dsimp only
    refine ⟨_, rfl, rfl, ?_, ?_, ?_, ?_⟩
    · intro v hv
      rw [hv]
    · intro hv
      rw [hv]
    · rw [hmeta.1]
    · rw [hmeta.2]
  · intro hr
    unfold upsert_url
    rw [hr]
    dsimp only
    exact ⟨_, rfl, rfl, rfl, rfl, rfl⟩

/-- Witness for C3 (amended): a fresh store ingesting one entry that
carries a last-modified value. -/
theorem claim3_witness :
    (⟨"a".trim, some ("2024-01-01".trim), none, none⟩ : DiscoveredURL) ∈
      discoverFromRoots [.urlset [⟨some "a", some "2024-01-01"⟩]] none ∧
    (∃ u, (upsert_url [] 1 5 7 ("a".trim) (some true) none true
            (some ("2024-01-01".trim)) none none).db = [] ++ [u] ∧
      u.in_sitemap = true ∧ u.last_modified = none ∧ u.change_freq = none ∧
      u.priority = none) :=
  ⟨by simp [discoverFromRoots, rootsLoop, iterSitemap, urlsetLoop, entryToURL,
      capReached, childCap, consume],
   (claim3_ingest_metadata (.urlset [⟨some "a", some "2024-01-01"⟩]) none
      ⟨"a".trim, some ("2024-01-01".trim), none, none⟩ [] 1 5 7
      (by simp [discoverFromRoots, rootsLoop, iterSitemap, urlsetLoop, entryToURL,
        capReached, childCap, consume])).2 rfl⟩

/-- C4, counterexample: `add_site` updates the name with
`COALESCE(?, name)` whenever a truthy name is passed, so a second call
with name "B" on a site whose name is already "A" *changes* the stored
name to "B" — the claim says it should stay "A". -/
theorem claim4_counterexample :
    ((add_site (add_site [] 1 "u" (some "A")).1 2 "u" (some "B")).1.map
        (fun s => s.name)) = [some "B"] ∧
    (some "B" : Option String) ≠ some "A" := by
  constructor
  · simp [add_site, nameTruthy, List.find?]
  · simp

/-- C4 (amended): when the site already exists, `ensure_site` returns the
existing id without consuming a new one, and overwrites the stored name
whenever a truthy (non-`None`, non-empty) name is supplied — even if the
stored name was already set; with a falsy name argument the row is left
unchanged.  Duplicate calls never error (the function is total and takes
the update path). -/
theorem claim4_ensure_site (db : List SiteRecord) (nextId : Nat) (base_url : String)
    (name : Option String) (r : SiteRecord)
    (hr : db.find? (fun s => s.base_url == base_url) = some r) :
    (add_site db nextId base_url name).2.2 = r.id ∧
    (add_site db nextId base_url name).2.1 = nextId ∧
    (add_site db nextId base_url name).1 =
      db.map (fun s =>
        if nameTruthy name = true ∧ s.id = r.id then { s with name := name } else s) := by
  unfold add_site
  rw [hr]
  dsimp only
  refine ⟨rfl, rfl, ?_⟩
  by_cases hn : nameTruthy name = true
  · rw [if_pos hn]
    apply List.map_congr_left
    intro s _
    simp [hn]
  · rw [if_neg hn]
    have h3 : ∀ s ∈ db,
        (if nameTruthy name = true ∧ s.id = r.id then { s with name := name } else s) = s := by
      intro s _
      rw [if_neg]
      rintro ⟨h4, _⟩
      exact hn h4
    calc db = db.map id := (List.map_id db).symm
    _ = db.map (fun s =>
        if nameTruthy name = true ∧ s.id = r.id then { s with name := name } else s) :=
      (List.map_congr_left h3).symm

/-- Witness for C4 (amended): overwriting the already-set name "A" with
"B" on an existing site. -/
theorem claim4_witness :
    (add_site [⟨3, "u", some "A"⟩] 9 "u" (some "B")).2.2 = 3 ∧
    (add_site [⟨3, "u", some "A"⟩] 9 "u" (some "B")).2.1 = 9 ∧
    (add_site [⟨3, "u", some "A"⟩] 9 "u" (some "B")).1 =
      [⟨3, "u", some "A"⟩].map (fun s =>
        if nameTruthy (some "B") = true ∧ s.id = 3 then { s with name := some "B" }
        else s) :=
  claim4_ensure_site [⟨3, "u", some "A"⟩] 9 "u" (some "B") ⟨3, "u", some "A"⟩ (by rfl)

/-- C5 (confirmed): on an existing (site, url) row, `upsert_url` updates
each optional field only when a non-absent value was supplied, keeps every
unsupplied field exactly as stored (never regressing a set field to
absent), refreshes `last_seen` to the current time unless `seen_now` is
false, and leaves identity and `first_seen` untouched. -/
theorem claim5_upsert_partial_update (db : List URLRecord) (nextId now site_id : Nat)
    (url : String) (in_s : Option Bool) (hs : Option Int) (seen_now : Bool)
    (lm cf : Option String) (pr : Option Rat) (r : URLRecord)
    (hr : db.find? (fun x => x.site_id == site_id && x.url == url) = some r) :
    ∃ u,
      (upsert_url db nextId now site_id url in_s hs seen_now lm cf pr).db =
          db.map (fun x => if x.id = r.id then u else x) ∧
      (upsert_url db nextId now site_id url in_s hs seen_now lm cf pr).rowId = r.id ∧
      u.in_sitemap = (match in_s with | some b => b | none => r.in_sitemap) ∧
      u.http_status = (match hs with | some v => some v | none => r.http_status) ∧
      u.last_modified = (match lm with | some v => some v | none => r.last_modified) ∧
      u.change_freq = (match cf with | some v => some v | none => r.change_freq) ∧
      u.priority = (match pr with | some v => some v | none => r.priority) ∧
      u.last_seen = (if seen_now then some now else r.last_seen) ∧
      u.id = r.id ∧ u.site_id = r.site_id ∧ u.url = r.url ∧ u.first_seen = r.first_seen ∧
      (r.http_status.isSome → u.http_status.isSome) ∧
      (r.last_modified.isSome → u.last_modified.isSome) ∧
      (r.change_freq.isSome → u.change_freq.isSome) ∧
      (r.priority.isSome → u.priority.isSome) ∧
      (r.last_seen.isSome ∧ seen_now = false → u.last_seen = r.last_seen) := by
  unfold upsert_url
  rw [hr]
  dsimp only
  refine ⟨_, rfl, rfl, rfl, rfl, rfl, rfl, rfl, rfl, rfl, rfl, rfl, rfl,
    ?_, ?_, ?_, ?_, ?_⟩
  · cases hs <;> simp
  · cases lm <;> simp
  · cases cf <;> simp
  · cases pr <;> simp
  · rintro ⟨_, h2⟩
    simp [h2]

/-- Witness for C5 at a concrete row: `http_status` supplied (overwritten),
`last_modified` absent (kept). -/
theorem claim5_witness :
    ∃ u,
      (upsert_url [⟨1, 2, "p", false, none, some "x", none, none, 0, none⟩] 10 42 2 "p"
          none (some 200) true none none none).db =
          [⟨1, 2, "p", false, none, some "x", none, none, 0, none⟩].map
            (fun x => if x.id = 1 then u else x) ∧
      (upsert_url [⟨1, 2, "p", false, none, some "x", none, none, 0, none⟩] 10 42 2 "p"
          none (some 200) true none none none).rowId = 1 ∧
      u.in_sitemap = (match (none : Option Bool) with | some b => b | none => false) ∧
      u.http_status = (match (some (200 : Int) : Option Int) with
        | some v => some v | none => none) ∧
      u.last_modified = (match (none : Option String) with
        | some v => some v | none => some "x") ∧
      u.change_freq = (match (none : Option String) with
        | some v => some v | none => none) ∧
      u.priority = (match (none : Option Rat) with | some v => some v | none => none) ∧
      u.last_seen = (if true then some 42 else none) ∧
      u.id = 1 ∧ u.site_id = 2 ∧ u.url = "p" ∧ u.first_seen = 0 ∧
      ((some "x" : Option String).isSome → u.last_modified.isSome) ∧
      ((none : Option String).isSome → u.change_freq.isSome) ∧
      ((none : Option Rat).isSome → u.priority.isSome) ∧
      ((none : Option Nat).isSome → u.last_seen.isSome) ∧
      ((none : Option Nat).isSome ∧ true = false → u.last_seen = none) := by
  have h := claim5_upsert_partial_update
    [⟨1, 2, "p", false, none, some "x", none, none, 0, none⟩] 10 42 2 "p"
    none (some 200) true none none none
    ⟨1, 2, "p", false, none, some "x", none, none, 0, none⟩ (by rfl)
  obtain ⟨u, h1, h2, h3, h4, h5, h6, h7, h8, h9, h10, h11, h12, h13, h14, h15, h16, h17⟩ := h
  exact ⟨u, h1, h2, h3, h4, h5, h6, h7, h8, h9, h10, h11, h12, h14, h15, h16,
    fun hx => by simp at hx, fun hx => by simp at hx⟩

/-- C6: evaluation at the failing input.  A migration whose script's
second statement fails leaves the first statement's schema change
committed (because `executescript` runs script statements outside the
`with conn:` transaction, committing as it goes) while its version is not
recorded in the ledger — exactly the half-applied, unrecorded state the
claim (and the spec's intent) rules out. -/
theorem claim6_migration_not_atomic :
    migrate ⟨[], []⟩ [(1, [⟨"CREATE TABLE a", true⟩, ⟨"MALFORMED", false⟩])] =
      (⟨["CREATE TABLE a"], []⟩, false) ∧
    (["CREATE TABLE a"] : List String) ≠ [] := by
  constructor
  · rfl
  · simp

/-- One step of the `migrate` loop is a no-op on every version already in
the snapshotted applied set. -/
theorem migrateLoop_filter (applied : List Nat) (st : DBState)
    (migs : List (Nat × List Stmt)) :
    migrateLoop applied st migs =
      migrateLoop applied st (migs.filter (fun m => decide (m.1 ∉ applied))) := by
  induction migs generalizing st with
  | nil => rfl
  | cons m rest ih =>
    obtain ⟨v, script⟩ := m
    by_cases hv : v ∈ applied
    · have hf : (decide ((v, script).1 ∉ applied)) = false := by
        simp [hv]
      simp only [migrateLoop, if_pos hv, List.filter_cons, hf, Bool.false_eq_true,
        if_false]
      exact ih st
    · have hf : (decide ((v, script).1 ∉ applied)) = true := by
        simp [hv]
      simp only [migrateLoop, if_neg hv, List.filter_cons, hf, if_true]
      by_cases hr : (applyMigration st v script).2 = true
      · rw [if_pos hr, if_pos hr]
        exact ih _
      · rw [if_neg hr, if_neg hr]

/-- C7 (confirmed): `migrate` skips exactly the versions already recorded
in the ledger (the loop equals the loop over the not-yet-applied
migrations); opening an existing storage file does not run migrations at
all, and even re-running `migrate` on a freshly migrated store is a
no-op; a freshly created file gets all migrations applied in ascending
version order with every applied version recorded in the ledger. -/
theorem claim7_migrations_once (st : DBState) (migs : List (Nat × List Stmt)) :
    migrate st migs = migrateLoop st.ledger st
      (migs.filter (fun m => decide (m.1 ∉ st.ledger))) ∧
    (∀ st2 : DBState, connect (some st2) = st2) ∧
    migrate (connect none) MIGRATIONS = (connect none, true) ∧
    (connect none).ledger = MIGRATIONS.map (fun m => m.1) ∧
    List.Chain' (· < ·) (connect none).ledger ∧
    (connect none).applied = migration1Script.map (fun s => s.name) := by
  refine ⟨migrateLoop_filter st.ledger st migs, fun st2 => rfl, ?_, ?_, ?_, ?_⟩
  · rfl
  · rfl
  · have h : (connect none).ledger = [1] := rfl
    rw [h]
    simp
  · rfl

/-! ### Lemmas about `latestPick` / `latest_inspection` -/

theorem latestPick_cons_isSome (i : InspectionRec) (rest : List InspectionRec) :
    (latestPick (i :: rest)).isSome := by
  simp only [latestPick]
  cases latestPick rest with
  | none => rfl
  | some b =>
    dsimp only
    split <;> rfl

theorem latestPick_none_eq_nil (l : List InspectionRec) (h : latestPick l = none) :
    l = [] := by
  cases l with
  | nil => rfl
  | cons i rest =>
    have hs := latestPick_cons_isSome i rest
    rw [h] at hs
    simp at hs

theorem latestPick_mem (l : List InspectionRec) (m : InspectionRec)
    (h : latestPick l = some m) : m ∈ l := by
  induction l generalizing m with
  | nil => simp [latestPick] at h
  | cons i rest ih =>
    simp only [latestPick] at h
    cases hp : latestPick rest with
    | none =>
      rw [hp] at h
      dsimp only at h
      injection h with h2
      exact h2 ▸ List.mem_cons_self i rest
    | some b =>
      rw [hp] at h
      dsimp only at h
      split at h
      · injection h with h2
        exact List.mem_cons_of_mem i (h2 ▸ ih b hp)
      · injection h with h2
        exact h2 ▸ List.mem_cons_self i rest

theorem latestPick_max (l : List InspectionRec) (m : InspectionRec)
    (h : latestPick l = some m) :
    ∀ j ∈ l, j.inspected_at < m.inspected_at ∨
      (j.inspected_at = m.inspected_at ∧ j.id ≤ m.id) := by
  induction l generalizing m with
  | nil => simp [latestPick] at h
  | cons i rest ih =>
    intro j hj
    simp only [latestPick] at h
    cases hp : latestPick rest with
    | none =>
      have hrest := latestPick_none_eq_nil rest hp
      subst hrest
      rw [hp] at h
      dsimp only at h
      injection h with h2
      rcases List.mem_cons.mp hj with h3 | h3
      · subst h3
        rw [← h2]
        right
        exact ⟨rfl, le_refl _⟩
      · simp at h3
    | some b =>
      rw [hp] at h
      dsimp only at h
      split at h
      · rename_i hcond
        injection h with h2
        rcases List.mem_cons.mp hj with h3 | h3
        · subst h3
          rw [← h2]
          omega
        · rw [← h2]
          exact ih b hp j h3
      · rename_i hcond
        injection h with h2
        rcases List.mem_cons.mp hj with h3 | h3
        · subst h3
          rw [← h2]
          right
          exact ⟨rfl, le_refl _⟩
        · rw [← h2]
          have hb := ih b hp j h3
          push_neg at hcond
          omega

theorem latest_inspection_none_iff (db : List InspectionRec) (u : Nat) :
    latest_inspection db u = none ↔ db.filter (fun i => i.url_id == u) = [] := by
  unfold latest_inspection
  constructor
  · exact latestPick_none_eq_nil _
  · intro h
    rw [h]
    rfl

theorem latest_inspection_spec (db : List InspectionRec) (u : Nat) (m : InspectionRec)
    (h : latest_inspection db u = some m) :
    m ∈ db ∧ m.url_id = u ∧
    ∀ j ∈ db, j.url_id = u →
      j.inspected_at < m.inspected_at ∨
        (j.inspected_at = m.inspected_at ∧ j.id ≤ m.id) := by
  unfold latest_inspection at h
  have hm := latestPick_mem _ m h
  have h1 := List.mem_filter.mp hm
  refine ⟨h1.1, by simpa using h1.2, ?_⟩
  intro j hj hju
  exact latestPick_max _ m h j (List.mem_filter.mpr ⟨hj, by simp [hju]⟩)

/-- C9 (confirmed): `record_inspection` always appends exactly one fresh
row — the stored table is the old table plus the new row, so N calls for
one page add N rows and no existing row is ever modified; and
`latest_inspection` is `none` exactly when the page has no inspections,
otherwise it returns an inspection of that page maximal in the
lexicographic (timestamp, id) order — greatest timestamp, ties broken by
highest id. -/
theorem claim9_inspections (db : List InspectionRec) (nextId now url_id : Nat)
    (f1 f2 f3 f4 f5 f6 : Option String) (ru : Option (List String))
    (raw : Option (List (String × String))) (u : Nat) :
    ((record_inspection db nextId now url_id f1 f2 f3 f4 f5 f6 ru raw).1 =
        db ++ [⟨nextId, url_id, now, f1, f2, f3, f4, f5, f6,
          (match ru with | some l => l | none => []),
          (match raw with | some x => x | none => [])⟩] ∧
      (record_inspection db nextId now url_id f1 f2 f3 f4 f5 f6 ru raw).1.length =
        db.length + 1 ∧
      (record_inspection db nextId now url_id f1 f2 f3 f4 f5 f6 ru raw).1.take
        db.length = db) ∧
    (latest_inspection db u = none ↔ db.filter (fun i => i.url_id == u) = []) ∧
    (∀ m, latest_inspection db u = some m →
      m ∈ db ∧ m.url_id = u ∧
      ∀ j ∈ db, j.url_id = u →
        j.inspected_at < m.inspected_at ∨
          (j.inspected_at = m.inspected_at ∧ j.id ≤ m.id)) := by
  have h0 : (record_inspection db nextId now url_id f1 f2 f3 f4 f5 f6 ru raw).1 =
      db ++ [⟨nextId, url_id, now, f1, f2, f3, f4, f5, f6,
        (match ru with | some l => l | none => []),
        (match raw with | some x => x | none => [])⟩] := rfl
  refine ⟨⟨h0, ?_, ?_⟩, latest_inspection_none_iff db u,
    fun m hm => latest_inspection_spec db u m hm⟩
  · rw [h0]
    simp
  · rw [h0, List.take_left]

/-- Witness for C9: a page with two inspections, tied handling visible —
the later timestamp wins. -/
theorem claim9_witness :
    (⟨2, 1, 7, none, none, none, none, none, none, [], []⟩ : InspectionRec) ∈
      [(⟨1, 1, 5, some "INDEXED", none, none, none, none, none, [], []⟩ : InspectionRec),
       ⟨2, 1, 7, none, none, none, none, none, none, [], []⟩] ∧
    (⟨2, 1, 7, none, none, none, none, none, none, [], []⟩ : InspectionRec).url_id = 1 ∧
    ∀ j ∈ [(⟨1, 1, 5, some "INDEXED", none, none, none, none, none, [], []⟩ :
        InspectionRec),
       ⟨2, 1, 7, none, none, none, none, none, none, [], []⟩], j.url_id = 1 →
      j.inspected_at <
          (⟨2, 1, 7, none, none, none, none, none, none, [], []⟩ :
            InspectionRec).inspected_at ∨
        (j.inspected_at =
            (⟨2, 1, 7, none, none, none, none, none, none, [], []⟩ :
              InspectionRec).inspected_at ∧
          j.id ≤ (⟨2, 1, 7, none, none, none, none, none, none, [], []⟩ :
            InspectionRec).id) :=
  (claim9_inspections
    [⟨1, 1, 5, some "INDEXED", none, none, none, none, none, [], []⟩,
     ⟨2, 1, 7, none, none, none, none, none, none, [], []⟩]
    0 0 0 none none none none none none none none 1).2.2
    ⟨2, 1, 7, none, none, none, none, none, none, [], []⟩ (by rfl)

/-- C10 (confirmed): the Reader never populates change-frequency or
priority — every entry it yields, capped or not, through `iter_sitemap`
or `discover_from_roots`, has both fields absent. -/
theorem claim10_reader_no_changefreq_priority (doc : SitemapDoc) (roots : List SitemapDoc)
    (cap : Option Nat) (d : DiscoveredURL) :
    (d ∈ iterSitemap doc cap → d.changefreq = none ∧ d.priority = none) ∧
    (d ∈ discoverFromRoots roots cap → d.changefreq = none ∧ d.priority = none) :=
  ⟨fun h => mem_iterSitemap_no_meta doc cap d h,
   fun h => mem_discoverFromRoots_no_meta roots cap d h⟩

/-- Witness for C10 at a concrete one-entry sitemap. -/
theorem claim10_witness :
    (⟨"a".trim, some "m".trim, none, none⟩ : DiscoveredURL) ∈
      iterSitemap (.urlset [⟨some "a", some "m"⟩]) none ∧
    ((⟨"a".trim, some "m".trim, none, none⟩ : DiscoveredURL).changefreq = none ∧
      (⟨"a".trim, some "m".trim, none, none⟩ : DiscoveredURL).priority = none) :=
  ⟨by simp [iterSitemap, urlsetLoop, entryToURL, capReached],
   (claim10_reader_no_changefreq_priority (.urlset [⟨some "a", some "m"⟩]) [] none
      ⟨"a".trim, some "m".trim, none, none⟩).1
    (by simp [iterSitemap, urlsetLoop, entryToURL, capReached])⟩

/-! ### Lemmas about `latestSet` and the reconciliation query -/

theorem mem_latestSet (insp : List InspectionRec) (i : InspectionRec) :
    i ∈ latestSet insp ↔
      i ∈ insp ∧ ∀ j ∈ insp, j.url_id = i.url_id → j.inspected_at ≤ i.inspected_at := by
  unfold latestSet
  rw [List.mem_filter]
  constructor
  · rintro ⟨h1, h2⟩
    refine ⟨h1, ?_⟩
    intro j hj hju
    rw [List.all_eq_true] at h2
    have h3 := h2 j (List.mem_filter.mpr ⟨hj, by simp [hju]⟩)
    simpa using h3
  · rintro ⟨h1, h2⟩
    refine ⟨h1, ?_⟩
    rw [List.all_eq_true]
    intro j hj
    have hj2 := List.mem_filter.mp hj
    have h3 := h2 j hj2.1 (by simpa using hj2.2)
    simpa using h3

theorem nodup_eq_singleton (L : List InspectionRec) (m : InspectionRec) (hnd : L.Nodup)
    (hm : m ∈ L) (hall : ∀ x ∈ L, x = m) : L = [m] := by
  cases L with
  | nil => simp at hm
  | cons a as =>
    have ha : a = m := hall a (List.mem_cons_self a as)
    subst ha
    cases as with
    | nil => rfl
    | cons b bs =>
      have hb : b = a := hall b (by simp)
      have hno : a ∉ b :: bs := (List.nodup_cons.mp hnd).1
      exact absurd (show a ∈ b :: bs by simp [hb]) hno

theorem latestSet_filter_eq (insp : List InspectionRec) (u : Nat) (hnd : insp.Nodup)
    (hins : ∀ i ∈ insp, ∀ j ∈ insp, i.url_id = j.url_id →
      i.inspected_at = j.inspected_at → i = j) :
    (latestSet insp).filter (fun l => l.url_id == u) =
      match latest_inspection insp u with
      | none => []
      | some m => [m] := by
  cases hm : latest_inspection insp u with
  | none =>
    rw [latest_inspection_none_iff] at hm
    dsimp only
    rw [List.filter_eq_nil_iff]
    intro a ha hab
    have ha2 := (mem_latestSet insp a).mp ha
    have ha3 : a ∈ insp.filter (fun i => i.url_id == u) :=
      List.mem_filter.mpr ⟨ha2.1, hab⟩
    rw [hm] at ha3
    simp at ha3
  | some m =>
    obtain ⟨hmem, hurl, hmax⟩ := latest_inspection_spec insp u m hm
    dsimp only
    apply nodup_eq_singleton
    · exact List.Nodup.filter _ (List.Nodup.filter _ hnd)
    · refine List.mem_filter.mpr ⟨?_, by simp [hurl]⟩
      refine (mem_latestSet insp m).mpr ⟨hmem, ?_⟩
      intro j hj hju
      have h4 := hmax j hj (by rw [hju, hurl])
      omega
    · intro x hx
      have hx1 := List.mem_filter.mp hx
      have hx2 := (mem_latestSet insp x).mp hx1.1
      have hxu : x.url_id = u := by simpa using hx1.2
      have h5 := hmax x hx2.1 hxu
      have h6 := hx2.2 m hmem (by rw [hurl, hxu])
      have h7 : x.inspected_at = m.inspected_at := by omega
      exact hins x hx2.1 m hmem (by rw [hxu, hurl]) h7

theorem report_row_of_page (insp : List InspectionRec) (sid : Nat) (hnd : insp.Nodup)
    (hins : ∀ i ∈ insp, ∀ j ∈ insp, i.url_id = j.url_id →
      i.inspected_at = j.inspected_at → i = j) (u : URLRecord) :
    (if u.site_id == sid then
        ((if ((latestSet insp).filter (fun l => l.url_id == u.id)).isEmpty then
            [ReportRow.mk u.id u.url none none]
          else ((latestSet insp).filter (fun l => l.url_id == u.id)).map
            (fun l => ReportRow.mk u.id u.url l.index_status l.coverage_state)).filter
          (fun r => sqlKeep r.index_status))
      else []) =
      (if (u.site_id == sid &&
          (match latest_inspection insp u.id with
           | none => true
           | some l => sqlKeep l.index_status)) = true then
        [ReportRow.mk u.id u.url
          ((latest_inspection insp u.id).bind fun l => l.index_status)
          ((latest_inspection insp u.id).bind fun l => l.coverage_state)]
      else []) := by
  by_cases hsite : (u.site_id == sid) = true
  · rw [if_pos hsite, latestSet_filter_eq insp u.id hnd hins]
    cases hm : latest_inspection insp u.id with
    | none => simp [hsite, sqlKeep]
    | some m =>
      by_cases hk : sqlKeep m.index_status = true
      · simp [hsite, hk]
      · simp [hsite, hk]
  · rw [if_neg hsite]
    have hsite2 : (u.site_id == sid) = false := by simpa using hsite
    have hq : (u.site_id == sid &&
        (match latest_inspection insp u.id with
         | none => true
         | some l => sqlKeep l.index_status)) = false := by
      rw [hsite2, Bool.false_and]
    rw [hq]
    simp

theorem report_rows_over (insp : List InspectionRec) (sid : Nat) (hnd : insp.Nodup)
    (hins : ∀ i ∈ insp, ∀ j ∈ insp, i.url_id = j.url_id →
      i.inspected_at = j.inspected_at → i = j) (ls : List URLRecord) :
    ((ls.map (fun u =>
        if u.site_id == sid then
          ((if ((latestSet insp).filter (fun l => l.url_id == u.id)).isEmpty then
              [ReportRow.mk u.id u.url none none]
            else ((latestSet insp).filter (fun l => l.url_id == u.id)).map
              (fun l => ReportRow.mk u.id u.url l.index_status l.coverage_state)).filter
            (fun r => sqlKeep r.index_status))
        else [])).flatten) =
      (ls.filter (fun u => u.site_id == sid &&
          (match latest_inspection insp u.id with
           | none => true
           | some l => sqlKeep l.index_status))).map
        (fun u => ReportRow.mk u.id u.url
          ((latest_inspection insp u.id).bind fun l => l.index_status)
          ((latest_inspection insp u.id).bind fun l => l.coverage_state)) := by
  induction ls with
  | nil => rfl
  | cons u rest ih =>
    simp only [List.map_cons, List.flatten_cons, List.filter_cons,
      report_row_of_page insp sid hnd hins u, ih]
    by_cases hq : (u.site_id == sid &&
        (match latest_inspection insp u.id with
         | none => true
         | some l => sqlKeep l.index_status)) = true
    · rw [if_pos hq, if_pos hq]
      rfl
    · rw [if_neg hq, if_neg hq]
      rfl

/-- C8, counterexample: the `latest` CTE keeps *every* inspection at a
page's maximal timestamp (there is no id tie-break in the join), so a page
with two same-timestamp inspections appears twice in the result — not
"exactly one result per page". -/
theorem claim8_counterexample :
    (not_indexed_but_internally_linked
        [⟨1, 1, "a", false, none, none, none, none, 0, none⟩]
        [⟨1, 1, 5, none, none, none, none, none, none, [], []⟩,
         ⟨2, 1, 5, none, none, none, none, none, none, [], []⟩] 1).map
      (fun r => r.url_id) = [1, 1] ∧
    ¬ ([1, 1] : List Nat).Nodup := by
  constructor
  · rfl
  · decide

/-- C8 (amended): provided no page has two distinct inspections sharing a
timestamp (so the max-timestamp join cannot fan out; the id tie-break in
the claim is then vacuous), the query returns exactly one row per page of
the site whose latest inspection is absent or has `index_status ≠
'INDEXED'`, and no others; each returned row carries its page's latest
index status, and the rows are ordered by page identity ascending.  With
same-timestamp ties the code can return several rows for one page. -/
theorem claim8_unindexed_pages (urls : List URLRecord) (insp : List InspectionRec)
    (site_id : Nat) (hnd : insp.Nodup)
    (hins : ∀ i ∈ insp, ∀ j ∈ insp, i.url_id = j.url_id →
      i.inspected_at = j.inspected_at → i = j) :
    (not_indexed_but_internally_linked urls insp site_id).map (fun r => r.url_id) =
      ((List.insertionSort (fun a b => a.id ≤ b.id) urls).filter
        (fun u => u.site_id == site_id &&
          (match latest_inspection insp u.id with
           | none => true
           | some l => sqlKeep l.index_status))).map (fun u => u.id) ∧
    (∀ r ∈ not_indexed_but_internally_linked urls insp site_id,
      r.index_status = (latest_inspection insp r.url_id).bind (fun l => l.index_status) ∧
      sqlKeep r.index_status = true) ∧
    List.Sorted (fun a b => a ≤ b)
      ((not_indexed_but_internally_linked urls insp site_id).map (fun r => r.url_id)) := by
  have hmain : not_indexed_but_internally_linked urls insp site_id =
      ((List.insertionSort (fun a b => a.id ≤ b.id) urls).filter
        (fun u => u.site_id == site_id &&
          (match latest_inspection insp u.id with
           | none => true
           | some l => sqlKeep l.index_status))).map
        (fun u => ReportRow.mk u.id u.url
          ((latest_inspection insp u.id).bind fun l => l.index_status)
          ((latest_inspection insp u.id).bind fun l => l.coverage_state)) := by
    unfold not_indexed_but_internally_linked
    dsimp only
    exact report_rows_over insp site_id hnd hins _
  have h1 : (not_indexed_but_internally_linked urls insp site_id).map
      (fun r => r.url_id) =
      ((List.insertionSort (fun a b => a.id ≤ b.id) urls).filter
        (fun u => u.site_id == site_id &&
          (match latest_inspection insp u.id with
           | none => true
           | some l => sqlKeep l.index_status))).map (fun u => u.id) := by
    rw [hmain, List.map_map]
    rfl
  refine ⟨h1, ?_, ?_⟩
  · intro r hr
    rw [hmain] at hr
    obtain ⟨u, hu, hru⟩ := List.mem_map.mp hr
    have hq := (List.mem_filter.mp hu).2
    rw [Bool.and_eq_true] at hq
    subst hru
    refine ⟨rfl, ?_⟩
    cases hm : latest_inspection insp u.id with
    | none => simp [hm, sqlKeep]
    | some l =>
      have h9 := hq.2
      rw [hm] at h9
      dsimp only at h9
      simp [hm, h9]
  · rw [h1]
    have hs : List.Sorted (fun a b : URLRecord => a.id ≤ b.id)
        (List.insertionSort (fun a b => a.id ≤ b.id) urls) :=
      List.sorted_insertionSort _ urls
    have hs2 := List.Pairwise.filter
      (fun u => u.site_id == site_id &&
        (match latest_inspection insp u.id with
         | none => true
         | some l => sqlKeep l.index_status)) hs
    exact (List.pairwise_map).mpr hs2

/-- Witness for C8 (amended): the spec's scenario — a site with 3 pages
where exactly one page's only inspection is 'INDEXED'. -/
theorem claim8_witness :
    (not_indexed_but_internally_linked
        [⟨1, 1, "a", false, none, none, none, none, 0, none⟩,
         ⟨2, 1, "b", false, none, none, none, none, 0, none⟩,
         ⟨3, 1, "c", false, none, none, none, none, 0, none⟩]
        [⟨1, 1, 5, some "INDEXED", none, none, none, none, none, [], []⟩] 1).map
      (fun r => r.url_id) =
      ((List.insertionSort (fun a b => a.id ≤ b.id)
        [(⟨1, 1, "a", false, none, none, none, none, 0, none⟩ : URLRecord),
         ⟨2, 1, "b", false, none, none, none, none, 0, none⟩,
         ⟨3, 1, "c", false, none, none, none, none, 0, none⟩]).filter
        (fun u => u.site_id == 1 &&
          (match latest_inspection
              [⟨1, 1, 5, some "INDEXED", none, none, none, none, none, [], []⟩] u.id with
           | none => true
           | some l => sqlKeep l.index_status))).map (fun u => u.id) :=
  (claim8_unindexed_pages
    [⟨1, 1, "a", false, none, none, none, none, 0, none⟩,
     ⟨2, 1, "b", false, none, none, none, none, 0, none⟩,
     ⟨3, 1, "c", false, none, none, none, none, 0, none⟩]
    [⟨1, 1, 5, some "INDEXED", none, none, none, none, none, [], []⟩] 1
    (by decide) (by decide)).1
